import Mathlib

/-!
Verification of the block-document editor core (processor-mvp).

The definitions below are a shallow embedding of the repository's editor
state machine: the Block data model (shared/schema.ts), the block-list
operations of client/src/components/NotionEditor.tsx (addBlockAfter,
deleteBlock, updateBlock, moveBlockToPosition, the block-delete-backward
handler), the slash-command recognition of TextBlock.tsx, createBlock of
the block utility module, and the useAutoSave debounce hook.

JavaScript strings are modelled as Lean Strings; the JS string methods
used by the code (trim, toLowerCase, startsWith on ASCII trigger words)
are embedded as executable functions over the character list. Fresh ids
produced by nanoid are modelled as an explicit newId argument.
-/

namespace ProcessorMVP

/-- Block types of the editor: the union in shared/schema.ts together with
the list types handled by TextBlock.tsx. -/
inductive BlockType where
  | paragraph
  | heading1
  | heading2
  | heading3
  | title
  | code
  | markdown
  | bulletList
  | orderedList
  | dashedList
deriving DecidableEq

/-- A document block: id, type, content; the optional language field is
used by code blocks (blockSchema in shared/schema.ts plus the language
property used by TextBlock.tsx and createBlock). -/
structure Block where
  id : String
  type : BlockType
  content : String
  language : Option String := none
deriving DecidableEq

/-- JS Array.prototype.findIndex specialised to the id comparison used
throughout NotionEditor.tsx: index of the first block whose id matches,
none when the id does not occur (JS returns -1). -/
def findBlockIndex (blockId : String) : List Block → Option Nat
  | [] => none
  | b :: rest =>
    if b.id = blockId then some 0 else (findBlockIndex blockId rest).map (· + 1)

/-- Content of a freshly inserted block in addBlockAfter
(NotionEditor.tsx): a paragraph starts as an empty paragraph tag, any
other type starts empty. -/
def defaultNewContent (blockType : BlockType) : String :=
  if blockType = BlockType.paragraph then "<p></p>" else ""

/-- addBlockAfter of NotionEditor.tsx. Finds the index of blockId; when
absent the list is unchanged. Otherwise the new block (fresh id newId,
the requested type, default content) is inserted right after that index
via slice(0, i+1) ++ [newBlock] ++ slice(i+1). The second component is
the id recorded by setLastCreatedBlockId (the focus target), which the
code sets unconditionally. -/
def addBlockAfter (blocks : List Block) (blockId : String) (blockType : BlockType)
    (newId : String) : List Block × String :=
  let newBlock : Block :=
    { id := newId, type := blockType, content := defaultNewContent blockType }
  match findBlockIndex blockId blocks with
  | none => (blocks, newId)
  | some blockIndex =>
      (blocks.take (blockIndex + 1) ++ newBlock :: blocks.drop (blockIndex + 1), newId)

/-- deleteBlock of NotionEditor.tsx: a no-op when at most one block
remains, otherwise filters out every block whose id equals blockId. -/
def deleteBlock (blocks : List Block) (blockId : String) : List Block :=
  if blocks.length ≤ 1 then blocks
  else blocks.filter (fun b => b.id != blockId)

/-- handleBlockDeleteBackward of NotionEditor.tsx: looks up the block's
index; when the index is at most 0 (first block or, as JS findIndex
returns -1, an unknown id) nothing happens. Otherwise the block is
deleted via deleteBlock and the id of the block before it is the focus
target passed to focusBlockById. -/
def handleBlockDeleteBackward (blocks : List Block) (blockId : String) :
    List Block × Option String :=
  match findBlockIndex blockId blocks with
  | none => (blocks, none)
  | some blockIndex =>
      if blockIndex = 0 then (blocks, none)
      else (deleteBlock blocks blockId, (blocks[blockIndex - 1]?).map Block.id)

/-- Partial Block as used by updateBlock's updatedData argument: each
field is optionally present; a present field overrides the block's field
under the JS object spread. -/
structure BlockPatch where
  id : Option String := none
  type : Option BlockType := none
  content : Option String := none
  language : Option String := none
deriving DecidableEq

/-- The JS spread merge of a block with a partial update,
as in brace-block, ...updatedData end-brace of updateBlock. -/
def applyPatch (b : Block) (p : BlockPatch) : Block :=
  { id := p.id.getD b.id
    type := p.type.getD b.type
    content := p.content.getD b.content
    language := (p.language.map some).getD b.language }

/-- updateBlock of NotionEditor.tsx: maps over the blocks, spreading the
update into the block whose id matches and leaving every other block as
it was. -/
def updateBlock (blocks : List Block) (blockId : String) (updatedData : BlockPatch) :
    List Block :=
  blocks.map (fun b => if b.id = blockId then applyPatch b updatedData else b)

/-- moveBlockToPosition of NotionEditor.tsx: find the block's index; an
unknown id or an out-of-bounds target position leaves the list
unchanged, as does a target equal to the current index; otherwise the
block is spliced out of its index and spliced back in at the target
position (remove-then-insert). -/
def moveBlockToPosition (blocks : List Block) (blockId : String)
    (targetPosition : Int) : List Block :=
  match findBlockIndex blockId blocks with
  | none => blocks
  | some blockIndex =>
      if targetPosition < 0 || (blocks.length : Int) ≤ targetPosition then blocks
      else if (blockIndex : Int) = targetPosition then blocks
      else
        match blocks[blockIndex]? with
        | none => blocks
        | some movedBlock =>
            (blocks.eraseIdx blockIndex).insertIdx targetPosition.toNat movedBlock

/-- Whitespace characters stripped by the JS trim used on trigger text
(the triggers themselves are ASCII, so the ASCII whitespace fragment of
the JS definition suffices). -/
def isJsSpace (c : Char) : Bool :=
  c = ' ' || c = '\t' || c = '\n' || c = '\r'

/-- Strip leading and trailing whitespace from a character list. -/
def trimChars (cs : List Char) : List Char :=
  ((cs.dropWhile isJsSpace).reverse.dropWhile isJsSpace).reverse

/-- JS String.prototype.trim on the model's strings. -/
def jsTrim (s : String) : String :=
  String.mk (trimChars s.data)

/-- ASCII case folding of a single character (the fragment of JS
toLowerCase relevant to the ASCII trigger words). -/
def asciiLower (c : Char) : Char :=
  if 'A' ≤ c && c ≤ 'Z' then Char.ofNat (c.toNat + 32) else c

/-- JS String.prototype.toLowerCase on the model's strings. -/
def jsToLower (s : String) : String :=
  String.mk (s.data.map asciiLower)

/-- JS String.prototype.startsWith. -/
def jsStartsWith (s pre : String) : Bool :=
  s.data.take pre.data.length == pre.data

/-- The switch over the trimmed, lowercased command text in
TextBlock.tsx's handleKeyDown: each recognised trigger maps to a target
block type, anything else leaves blockType null. -/
def slashBlockType (command : String) : Option BlockType :=
  if command = "/title" then some BlockType.title
  else if command = "/h1" then some BlockType.title
  else if command = "/heading" then some BlockType.heading2
  else if command = "/h2" then some BlockType.heading2
  else if command = "/subheading" then some BlockType.heading3
  else if command = "/h3" then some BlockType.heading3
  else if command = "/body" then some BlockType.paragraph
  else if command = "/monostyled" then some BlockType.code
  else if command = "/code" then some BlockType.code
  else if command = "/bulletedlist" then some BlockType.bulletList
  else if command = "/numberedlist" then some BlockType.orderedList
  else none

/-- The recognised trigger vocabulary (the case labels of the switch). -/
def slashTriggers : List String :=
  ["/title", "/h1", "/heading", "/h2", "/subheading", "/h3", "/body",
   "/monostyled", "/code", "/bulletedlist", "/numberedlist"]

/-- Slash-command recognition on Enter in TextBlock.tsx's handleKeyDown:
the editor text must start with a slash, and then the trimmed,
lowercased text is matched against the trigger switch. Returns the
target type when a conversion fires, none otherwise. -/
def handleEnterSlash (text : String) : Option BlockType :=
  if jsStartsWith text "/" then slashBlockType (jsToLower (jsTrim text)) else none

/-- Effect of the recognised-slash-command branch on the block itself:
the editor content is cleared (editor.commands.clearContent) and the
block's type is set via updateBlock; an unrecognised command leaves the
block untouched. The text argument is the block's plain text
(editor.getText). -/
def applySlashEnter (b : Block) (text : String) : Block :=
  match handleEnterSlash text with
  | some t => { b with type := t, content := "" }
  | none => b

/-- The same slash-on-Enter step at document level: the conversion is
delivered through updateBlock on the block's id (content cleared, type
replaced); an unrecognised command changes nothing. -/
def documentSlashEnter (blocks : List Block) (blockId : String) (text : String) :
    List Block :=
  match handleEnterSlash text with
  | some t => updateBlock blocks blockId { type := some t, content := some "" }
  | none => blocks

/-- createBlock of the block utility module: builds a block from a fresh
id (nanoid, modelled as the explicit newId argument), the type and the
content; the language property is attached only when the language
argument is truthy (present and non-empty - JS "if (language)"). -/
def createBlock (newId : String) (blockType : BlockType := BlockType.paragraph)
    (content : String := "") (language : Option String := none) : Block :=
  let block : Block := { id := newId, type := blockType, content := content }
  match language with
  | some l => if l = "" then block else { block with language := some l }
  | none => block

/-- State of the useAutoSave hook: the last saved data
(lastSavedDataRef) and the pending debounce timer (saveTimeoutRef),
carrying its absolute fire time and the data captured by the timeout
closure. -/
structure AutoSaveState (T : Type) where
  lastSaved : T
  pending : Option (Nat × T)
deriving DecidableEq

/-- The body of useAutoSave's effect, run when a snapshot arrives at
absolute time now: if the data equals the last saved data (the hook
compares JSON serialisations, modelled as structural equality) nothing
happens; otherwise any existing timer is cancelled and a fresh one is
scheduled delayMs from now, capturing the new data. -/
def autoSaveReceive {T : Type} [DecidableEq T] (delayMs : Nat)
    (s : AutoSaveState T) (now : Nat) (data : T) : AutoSaveState T :=
  if data = s.lastSaved then s
  else { lastSaved := s.lastSaved, pending := some (now + delayMs, data) }

/-- One event of the autosave timeline: if a pending timer is due at or
before the arriving snapshot's time, it fires first (invoking the save
callback with its captured data and updating lastSaved), then the
snapshot is processed by the effect body. Returns the new state and the
saves emitted, each tagged with its fire time. -/
def autoSaveStep {T : Type} [DecidableEq T] (delayMs : Nat)
    (s : AutoSaveState T) (now : Nat) (data : T) :
    AutoSaveState T × List (Nat × T) :=
  match s.pending with
  | some (due, payload) =>
      if due ≤ now then
        (autoSaveReceive delayMs { lastSaved := payload, pending := none } now data,
         [(due, payload)])
      else (autoSaveReceive delayMs s now data, [])
  | none => (autoSaveReceive delayMs s now data, [])

/-- Run the autosave hook over a time-ordered list of (time, snapshot)
events; after the last event any still-pending timer fires. Returns
every save the callback performs, with its time and payload. -/
def runAutoSave {T : Type} [DecidableEq T] (delayMs : Nat)
    (s : AutoSaveState T) : List (Nat × T) → List (Nat × T)
  | [] =>
      match s.pending with
      | none => []
      | some (due, payload) => [(due, payload)]
  | (now, data) :: rest =>
      let step := autoSaveStep delayMs s now data
      step.2 ++ runAutoSave delayMs step.1 rest

/-- A concrete block used for witness instantiations. -/
def sampleA : Block := { id := "A", type := BlockType.paragraph, content := "a" }

/-- A second concrete block used for witness instantiations. -/
def sampleB : Block := { id := "B", type := BlockType.paragraph, content := "b" }

/-- A third concrete block used for witness instantiations. -/
def sampleC : Block := { id := "C", type := BlockType.paragraph, content := "c" }

/-- A concrete partial update used for witness instantiations. -/
def samplePatch : BlockPatch := { content := some "updated" }

/-! Helper lemmas about findBlockIndex and the id-based filter. -/

theorem findBlockIndex_none_iff (blockId : String) (blocks : List Block) :
    findBlockIndex blockId blocks = none ↔ ∀ b ∈ blocks, b.id ≠ blockId := by
  induction blocks with
  | nil => simp [findBlockIndex]
  | cons b rest ih =>
      by_cases hb : b.id = blockId
      · simp [findBlockIndex, hb]
      · simp [findBlockIndex, hb, ih]

theorem findBlockIndex_some (blockId : String) (blocks : List Block) (i : Nat)
    (h : findBlockIndex blockId blocks = some i) :
    ∃ hi : i < blocks.length, blocks[i].id = blockId := by
  induction blocks generalizing i with
  | nil => simp [findBlockIndex] at h
  | cons b rest ih =>
      by_cases hb : b.id = blockId
      · simp [findBlockIndex, hb] at h
        subst h
        exact ⟨by simp, by simpa using hb⟩
      · simp [findBlockIndex, hb] at h
        obtain ⟨j, hj, rfl⟩ := h
        obtain ⟨hlt, hid⟩ := ih j hj
        exact ⟨by simpa using Nat.succ_lt_succ hlt, by simpa using hid⟩

theorem findBlockIndex_nodup (blocks : List Block) (i : Nat) (hi : i < blocks.length)
    (hnd : (blocks.map Block.id).Nodup) :
    findBlockIndex (blocks[i].id) blocks = some i := by
  induction blocks generalizing i with
  | nil => simp at hi
  | cons b rest ih =>
      have hnd' : (∀ x ∈ rest, ¬x.id = b.id) ∧ (rest.map Block.id).Nodup := by
        simpa using hnd
      match i with
      | 0 => simp [findBlockIndex]
      | j + 1 =>
          have hj : j < rest.length := by
            simpa using Nat.lt_of_succ_lt_succ hi
          have hne : ¬b.id = rest[j].id :=
            fun e => hnd'.1 rest[j] (rest.getElem_mem hj) e.symm
          simp [findBlockIndex, List.getElem_cons_succ, hne, ih j hj hnd'.2]

theorem filter_id_ne_of_forall (blocks : List Block) (blockId : String)
    (h : ∀ b ∈ blocks, b.id ≠ blockId) :
    blocks.filter (fun b => b.id != blockId) = blocks :=
  List.filter_eq_self.mpr fun b hb => bne_iff_ne.mpr (h b hb)

theorem filter_id_ne_eraseIdx (blocks : List Block) (i : Nat) (hi : i < blocks.length)
    (hnd : (blocks.map Block.id).Nodup) :
    blocks.filter (fun b => b.id != blocks[i].id) = blocks.eraseIdx i := by
  induction blocks generalizing i with
  | nil => simp at hi
  | cons b rest ih =>
      have hnd' : (∀ x ∈ rest, ¬x.id = b.id) ∧ (rest.map Block.id).Nodup := by
        simpa using hnd
      match i with
      | 0 =>
          have hrest_keep : rest.filter (fun x => x.id != b.id) = rest :=
            List.filter_eq_self.mpr fun x hx => bne_iff_ne.mpr (hnd'.1 x hx)
          simp [List.filter_cons, hrest_keep, List.eraseIdx_cons_zero]
      | j + 1 =>
          have hj : j < rest.length := by
            simpa using Nat.lt_of_succ_lt_succ hi
          have hne : b.id ≠ rest[j].id :=
            fun e => hnd'.1 rest[j] (rest.getElem_mem hj) e.symm
          simp [List.filter_cons, List.getElem_cons_succ, bne_iff_ne.mpr hne,
            List.eraseIdx_cons_succ, ih j hj hnd'.2]

theorem deleteBlock_length_pos (blocks : List Block) (blockId : String)
    (h1 : 1 ≤ blocks.length) (hnd : (blocks.map Block.id).Nodup) :
    1 ≤ (deleteBlock blocks blockId).length := by
  unfold deleteBlock
  split
  · exact h1
  · rename_i hlen
    by_cases hall : ∀ b ∈ blocks, b.id ≠ blockId
    · rw [filter_id_ne_of_forall blocks blockId hall]
      exact h1
    · push_neg at hall
      obtain ⟨b, hb, hid⟩ := hall
      obtain ⟨i, hilt, hieq⟩ := List.mem_iff_getElem.mp hb
      have : blocks.filter (fun x => x.id != blockId) = blocks.eraseIdx i := by
        have := filter_id_ne_eraseIdx blocks i hilt hnd
        rwa [hieq, hid] at this
      rw [this, List.length_eraseIdx_of_lt hilt]
      omega

/-! Claim theorems. -/

/-- Claim C3: DeleteBackwardMerge targeted at the first block of the
sequence leaves the sequence completely unchanged (a silent no-op); at an
index i > 0 it removes exactly that block and reports the id of the
block previously at index i - 1 as the new focus target. (The index-i
part is stated for documents satisfying the data-model invariant that
ids are unique.) -/
theorem handleBlockDeleteBackward_spec (blocks : List Block) :
    (∀ (b : Block) (rest : List Block), blocks = b :: rest →
      handleBlockDeleteBackward blocks b.id = (blocks, none)) ∧
    (∀ (i : Nat) (hi : i < blocks.length), 0 < i →
      (blocks.map Block.id).Nodup →
      handleBlockDeleteBackward blocks (blocks[i].id) =
        (blocks.eraseIdx i, some (blocks.get ⟨i - 1, by omega⟩).id)) := by
  constructor
  · rintro b rest rfl
    simp [handleBlockDeleteBackward, findBlockIndex]
  · intro i hi hpos hnd
    have hfind := findBlockIndex_nodup blocks i hi hnd
    have hlen2 : 2 ≤ blocks.length := by omega
    have herase : deleteBlock blocks (blocks[i].id) = blocks.eraseIdx i := by
      unfold deleteBlock
      rw [if_neg (by omega), filter_id_ne_eraseIdx blocks i hi hnd]
    have hget : blocks[i - 1]? = some (blocks.get ⟨i - 1, by omega⟩) := by
      rw [List.getElem?_eq_getElem (by omega)]
      rfl
    simp only [handleBlockDeleteBackward, hfind, if_neg (by omega : ¬i = 0),
      herase, hget, Option.map_some']

/-- Witness for C3 at a concrete two-block document. -/
theorem handleBlockDeleteBackward_spec_witness :
    handleBlockDeleteBackward [sampleA, sampleB] sampleA.id = ([sampleA, sampleB], none) ∧
    handleBlockDeleteBackward [sampleA, sampleB] (([sampleA, sampleB])[1].id) =
      ([sampleA, sampleB].eraseIdx 1,
        some (([sampleA, sampleB] : List Block).get ⟨0, by decide⟩).id) :=
  ⟨(handleBlockDeleteBackward_spec [sampleA, sampleB]).1 sampleA [sampleB] rfl,
   (handleBlockDeleteBackward_spec [sampleA, sampleB]).2 1 (by decide) (by decide) (by decide)⟩

/-- Claim C4: DeleteBlock on a one-block sequence is a no-op; on a
sequence of length at least two with unique ids it removes exactly the
block whose id matches, and removes nothing when no block has that
id. -/
theorem deleteBlock_spec (blocks : List Block) (blockId : String) :
    (blocks.length = 1 → deleteBlock blocks blockId = blocks) ∧
    (2 ≤ blocks.length → (blocks.map Block.id).Nodup →
      ((∀ b ∈ blocks, b.id ≠ blockId) → deleteBlock blocks blockId = blocks) ∧
      (∀ (i : Nat) (hi : i < blocks.length), blocks[i].id = blockId →
        deleteBlock blocks blockId = blocks.eraseIdx i)) := by
  constructor
  · intro h1
    unfold deleteBlock
    rw [if_pos (by omega)]
  · intro h2 hnd
    constructor
    · intro hall
      unfold deleteBlock
      rw [if_neg (by omega), filter_id_ne_of_forall blocks blockId hall]
    · intro i hi hid
      unfold deleteBlock
      rw [if_neg (by omega)]
      have := filter_id_ne_eraseIdx blocks i hi hnd
      rwa [hid] at this

/-- Witness for C4: the one-block no-op and an exact removal at index 1. -/
theorem deleteBlock_spec_witness :
    deleteBlock [sampleA] "A" = [sampleA] ∧
    deleteBlock [sampleA, sampleB] "B" = [sampleA, sampleB].eraseIdx 1 :=
  ⟨(deleteBlock_spec [sampleA] "A").1 rfl,
   ((deleteBlock_spec [sampleA, sampleB] "B").2 (by decide) (by decide)).2 1
     (by decide) (by decide)⟩

/-- Claim C1: starting from a non-empty document whose block ids are
unique (the data-model invariant), every intent - SplitAfter via
addBlockAfter, DeleteBlock, DeleteBackwardMerge, UpdateBlockContent,
Reorder via moveBlockToPosition, and SlashCommand - leaves the document
non-empty: no operation ever empties the block sequence. -/
theorem no_intent_empties_document (blocks : List Block)
    (h1 : 1 ≤ blocks.length) (hnd : (blocks.map Block.id).Nodup)
    (blockId newId text : String) (t : BlockType) (target : Int) (p : BlockPatch) :
    1 ≤ (addBlockAfter blocks blockId t newId).1.length ∧
    1 ≤ (deleteBlock blocks blockId).length ∧
    1 ≤ (handleBlockDeleteBackward blocks blockId).1.length ∧
    1 ≤ (updateBlock blocks blockId p).length ∧
    1 ≤ (moveBlockToPosition blocks blockId target).length ∧
    1 ≤ (documentSlashEnter blocks blockId text).length := by
  refine ⟨?_, ?_, ?_, ?_, ?_, ?_⟩
  · unfold addBlockAfter
    cases hf : findBlockIndex blockId blocks with
    | none => simpa using h1
    | some i =>
        simp only [List.length_append, List.length_cons]
        omega
  · exact deleteBlock_length_pos blocks blockId h1 hnd
  · unfold handleBlockDeleteBackward
    cases hf : findBlockIndex blockId blocks with
    | none => simpa using h1
    | some i =>
        dsimp only
        split
        · simpa using h1
        · simpa using deleteBlock_length_pos blocks blockId h1 hnd
  · simpa [updateBlock] using h1
  · unfold moveBlockToPosition
    cases hf : findBlockIndex blockId blocks with
    | none => exact h1
    | some i =>
        obtain ⟨hi, -⟩ := findBlockIndex_some blockId blocks i hf
        dsimp only
        split
        · exact h1
        · split
          · exact h1
          · rename_i hcond hne
            cases hg : blocks[i]? with
            | none => exact h1
            | some m =>
                dsimp only
                have hc : ¬target < 0 ∧ ¬(blocks.length : Int) ≤ target := by
                  constructor <;> intro hx <;> exact hcond (by simp [hx])
                have hel : (blocks.eraseIdx i).length = blocks.length - 1 :=
                  List.length_eraseIdx_of_lt hi
                have hto : target.toNat ≤ blocks.length - 1 := by omega
                rw [List.length_insertIdx target.toNat (blocks.eraseIdx i)
                  (by rw [hel]; exact hto), hel]
                omega
  · unfold documentSlashEnter
    cases handleEnterSlash text with
    | none => exact h1
    | some t' => simpa [updateBlock] using h1

/-- Witness for C1 on a concrete one-block document. -/
theorem no_intent_empties_document_witness :
    1 ≤ (deleteBlock [sampleA] "A").length ∧
    1 ≤ (moveBlockToPosition [sampleA] "A" 0).length :=
  ⟨(no_intent_empties_document [sampleA] (by decide) (by decide) "A" "N" "/h2"
      BlockType.code 0 samplePatch).2.1,
   (no_intent_empties_document [sampleA] (by decide) (by decide) "A" "N" "/h2"
      BlockType.code 0 samplePatch).2.2.2.2.1⟩

/-- Claim C2: addBlockAfter on a blockId that occurs (under unique ids)
inserts one fresh block of the requested type immediately after that
block, leaves every other block unchanged in order, grows the length by
exactly one, and reports the new block's id as the focus target; on a
blockId that does not occur the sequence is returned unchanged. -/
theorem addBlockAfter_spec (blocks : List Block) (blockId : String) (t : BlockType)
    (newId : String) :
    ((∀ b ∈ blocks, b.id ≠ blockId) →
      addBlockAfter blocks blockId t newId = (blocks, newId)) ∧
    (∀ (i : Nat) (hi : i < blocks.length), blocks[i].id = blockId →
      (blocks.map Block.id).Nodup →
      addBlockAfter blocks blockId t newId =
        (blocks.take (i + 1) ++
          ({ id := newId, type := t, content := defaultNewContent t } : Block) ::
            blocks.drop (i + 1), newId) ∧
      (addBlockAfter blocks blockId t newId).1.length = blocks.length + 1) := by
  constructor
  · intro hall
    unfold addBlockAfter
    rw [(findBlockIndex_none_iff blockId blocks).mpr hall]
  · intro i hi hid hnd
    have hfind : findBlockIndex blockId blocks = some i := by
      have := findBlockIndex_nodup blocks i hi hnd
      rwa [hid] at this
    constructor
    · unfold addBlockAfter
      rw [hfind]
    · unfold addBlockAfter
      rw [hfind]
      simp only [List.length_append, List.length_cons, List.length_take,
        List.length_drop]
      omega

/-- Witness for C2 on a concrete one-block document. -/
theorem addBlockAfter_spec_witness :
    addBlockAfter [sampleA] "A" BlockType.code "N" =
      ([sampleA].take 1 ++
        ({ id := "N", type := BlockType.code,
           content := defaultNewContent BlockType.code } : Block) ::
          [sampleA].drop 1, "N") ∧
    (addBlockAfter [sampleA] "A" BlockType.code "N").1.length = [sampleA].length + 1 :=
  (addBlockAfter_spec [sampleA] "A" BlockType.code "N").2 0 (by decide) (by decide)
    (by decide)

/-- Claim C5: moveBlockToPosition follows remove-then-insert array-move
semantics: on [A,B,C] moving A to position 1 gives [B,A,C] and to
position 2 gives [B,C,A]; in general (under unique ids) the moved block
is removed from its index and reinserted at the in-bounds target index;
an out-of-bounds target index is a no-op. -/
theorem moveBlockToPosition_spec :
    (moveBlockToPosition [sampleA, sampleB, sampleC] "A" 1 =
        [sampleB, sampleA, sampleC] ∧
     moveBlockToPosition [sampleA, sampleB, sampleC] "A" 2 =
        [sampleB, sampleC, sampleA]) ∧
    (∀ (blocks : List Block) (i : Nat) (hi : i < blocks.length) (target : Int),
      (blocks.map Block.id).Nodup → 0 ≤ target → target < (blocks.length : Int) →
      target ≠ (i : Int) →
      moveBlockToPosition blocks (blocks[i].id) target =
        (blocks.eraseIdx i).insertIdx target.toNat blocks[i]) ∧
    (∀ (blocks : List Block) (blockId : String) (target : Int),
      target < 0 ∨ (blocks.length : Int) ≤ target →
      moveBlockToPosition blocks blockId target = blocks) := by
  refine ⟨⟨by decide, by decide⟩, ?_, ?_⟩
  · intro blocks i hi target hnd h0 hlt hne
    have hfind := findBlockIndex_nodup blocks i hi hnd
    unfold moveBlockToPosition
    rw [hfind]
    dsimp only
    rw [if_neg (by simp; omega)]
    rw [if_neg (fun e => hne e.symm)]
    rw [List.getElem?_eq_getElem hi]
  · intro blocks blockId target h
    unfold moveBlockToPosition
    cases hf : findBlockIndex blockId blocks with
    | none => rfl
    | some i =>
        dsimp only
        rw [if_pos]
        rcases h with h | h <;> simp [h]

/-- Witness for C5: concrete in-bounds move and out-of-bounds no-op. -/
theorem moveBlockToPosition_spec_witness :
    moveBlockToPosition [sampleA, sampleB] "A" 1 = [sampleB, sampleA] ∧
    moveBlockToPosition [sampleA] "A" 5 = [sampleA] :=
  ⟨moveBlockToPosition_spec.2.1 [sampleA, sampleB] 0 (by decide) 1 (by decide)
      (by decide) (by decide) (by decide),
   moveBlockToPosition_spec.2.2 [sampleA] "A" 5 (Or.inr (by decide))⟩

/-- Claim C9: updateBlock shallow-merges the given partial fields into
every position whose block id matches, leaves the block at every other
position exactly as it was (same id, type, content, language), preserves
the sequence's length and order, and is the identity when no block has
the given id. -/
theorem updateBlock_spec (blocks : List Block) (blockId : String) (p : BlockPatch) :
    (updateBlock blocks blockId p).length = blocks.length ∧
    ((∀ b ∈ blocks, b.id ≠ blockId) → updateBlock blocks blockId p = blocks) ∧
    (∀ (i : Nat) (hi : i < blocks.length),
      (blocks[i].id ≠ blockId →
        (updateBlock blocks blockId p)[i]? = some blocks[i]) ∧
      (blocks[i].id = blockId →
        (updateBlock blocks blockId p)[i]? = some (applyPatch blocks[i] p))) := by
  refine ⟨by simp [updateBlock], ?_, ?_⟩
  · intro hall
    unfold updateBlock
    induction blocks with
    | nil => rfl
    | cons b rest ih =>
        have hb : b.id ≠ blockId := hall b (by simp)
        simp only [List.map_cons, if_neg hb]
        rw [ih (fun x hx => hall x (by simp [hx]))]
  · intro i hi
    constructor
    · intro hne
      rw [updateBlock, List.getElem?_map, List.getElem?_eq_getElem hi]
      simp [hne]
    · intro heq
      rw [updateBlock, List.getElem?_map, List.getElem?_eq_getElem hi]
      simp [heq]

/-- Witness for C9 on a concrete two-block document. -/
theorem updateBlock_spec_witness :
    (updateBlock [sampleA, sampleB] "B" samplePatch).length = 2 ∧
    (updateBlock [sampleA, sampleB] "B" samplePatch)[0]? = some sampleA ∧
    (updateBlock [sampleA, sampleB] "B" samplePatch)[1]? =
      some (applyPatch sampleB samplePatch) :=
  ⟨(updateBlock_spec [sampleA, sampleB] "B" samplePatch).1,
   ((updateBlock_spec [sampleA, sampleB] "B" samplePatch).2.2 0 (by decide)).1
     (by decide),
   ((updateBlock_spec [sampleA, sampleB] "B" samplePatch).2.2 1 (by decide)).2
     (by decide)⟩

/-- An unrecognised command string (one outside the trigger vocabulary)
falls through every case of the switch. -/
theorem slashBlockType_not_mem (c : String) (hc : c ∉ slashTriggers) :
    slashBlockType c = none := by
  simp only [slashTriggers, List.mem_cons, List.not_mem_nil, or_false, not_or] at hc
  obtain ⟨n1, n2, n3, n4, n5, n6, n7, n8, n9, n10, n11⟩ := hc
  unfold slashBlockType
  rw [if_neg n1, if_neg n2, if_neg n3, if_neg n4, if_neg n5, if_neg n6, if_neg n7,
    if_neg n8, if_neg n9, if_neg n10, if_neg n11]

/-- Claim C6: slash-command recognition on Enter: text exactly /h2
converts the block's type to heading2 (its content being cleared by the
command), text /h2x - a strict extension of a trigger - performs no
conversion and leaves the block unchanged, and in general a conversion
only ever fires when the trimmed, lowercased text is exactly one of the
trigger words, so prefix or partial matches are never accepted. -/
theorem slashCommand_spec :
    (∀ b : Block, applySlashEnter b "/h2" =
      { b with type := BlockType.heading2, content := "" }) ∧
    (∀ b : Block, applySlashEnter b "/h2x" = b) ∧
    (∀ (text : String) (t : BlockType), handleEnterSlash text = some t →
      jsToLower (jsTrim text) ∈ slashTriggers) := by
  refine ⟨?_, ?_, ?_⟩
  · intro b
    unfold applySlashEnter
    rw [show handleEnterSlash "/h2" = some BlockType.heading2 from by decide]
  · intro b
    unfold applySlashEnter
    rw [show handleEnterSlash "/h2x" = none from by decide]
  · intro text t h
    unfold handleEnterSlash at h
    split at h
    · by_cases hmem : jsToLower (jsTrim text) ∈ slashTriggers
      · exact hmem
      · rw [slashBlockType_not_mem _ hmem] at h
        cases h
    · cases h

/-- Witness for C6 on a concrete block and the concrete trigger /h2. -/
theorem slashCommand_spec_witness :
    applySlashEnter sampleA "/h2" =
      { sampleA with type := BlockType.heading2, content := "" } ∧
    applySlashEnter sampleA "/h2x" = sampleA ∧
    jsToLower (jsTrim "/h2") ∈ slashTriggers :=
  ⟨slashCommand_spec.1 sampleA, slashCommand_spec.2.1 sampleA,
   slashCommand_spec.2.2 "/h2" BlockType.heading2 (by decide)⟩

/-- Claim C7: the autosave coordinator is a trailing debounce. Snapshots
are modelled as natural numbers: 0 is the initially saved snapshot and
1, 2, 3 are the pairwise-distinct snapshots S1, S2, S3 arriving at times
0ms, 500ms and 1000ms with a 2000ms delay; exactly one save fires, at
t = 3000ms, and its payload is S3. -/
theorem autoSave_trailing_debounce :
    runAutoSave 2000 ({ lastSaved := 0, pending := none } : AutoSaveState Nat)
      [(0, 1), (500, 2), (1000, 3)] = [(3000, 3)] := by decide

/-- Claim C8: a snapshot structurally equal to the last saved snapshot
never schedules a timer (the effect body returns the state unchanged,
with no pending timer) and never invokes the save callback, no matter
how many times it is fed. -/
theorem autoSave_identical_no_save {T : Type} [DecidableEq T] (delayMs : Nat)
    (init : T) (times : List Nat) :
    (∀ now : Nat,
      autoSaveReceive delayMs { lastSaved := init, pending := none } now init =
        { lastSaved := init, pending := none }) ∧
    runAutoSave delayMs { lastSaved := init, pending := none }
      (times.map (fun tm => (tm, init))) = [] := by
  have hrecv : ∀ now : Nat,
      autoSaveReceive delayMs { lastSaved := init, pending := none } now init =
        { lastSaved := init, pending := none } := by
    intro now
    unfold autoSaveReceive
    rw [if_pos rfl]
  refine ⟨hrecv, ?_⟩
  induction times with
  | nil => rfl
  | cons tm rest ih =>
      have hstep : autoSaveStep delayMs
          ({ lastSaved := init, pending := none } : AutoSaveState T) tm init =
          ({ lastSaved := init, pending := none }, []) := by
        unfold autoSaveStep
        dsimp only
        rw [hrecv]
      simp only [List.map_cons, runAutoSave, hstep]
      simpa using ih

/-- Witness for C8 on a concrete three-event timeline of identical
snapshots. -/
theorem autoSave_identical_no_save_witness :
    runAutoSave 2000 ({ lastSaved := 7, pending := none } : AutoSaveState Nat)
      ([10, 20, 30].map (fun tm => (tm, 7))) = [] :=
  (autoSave_identical_no_save 2000 7 [10, 20, 30]).2

/-- Claim C10 counterexample: createBlock with a non-code type and a
non-empty language argument returns a block that does carry the language
field, so the language field is not restricted to code blocks. -/
theorem createBlock_language_counterexample :
    BlockType.paragraph ≠ BlockType.code ∧
    (createBlock "b1" BlockType.paragraph "" (some "python")).language =
      some "python" :=
  ⟨by decide, by decide⟩

/-- Claim C10 amended: whether createBlock attaches the language field
depends only on the truthiness of the language argument, never on the
block type: an absent or empty language yields a block with no language
field (for code blocks too), and a non-empty language is attached for
every block type. -/
theorem createBlock_language_spec (newId : String) (t : BlockType) (content : String) :
    (createBlock newId t content none).language = none ∧
    (createBlock newId t content (some "")).language = none ∧
    (∀ lang : String, lang ≠ "" →
      (createBlock newId t content (some lang)).language = some lang) := by
  refine ⟨rfl, ?_, ?_⟩
  · unfold createBlock
    dsimp only
    rw [if_pos rfl]
  · intro lang hl
    unfold createBlock
    dsimp only
    rw [if_neg hl]

/-- Witness for C10's amended statement at concrete arguments. -/
theorem createBlock_language_spec_witness :
    (createBlock "b2" BlockType.code "" none).language = none ∧
    (createBlock "b2" BlockType.paragraph "" (some "python")).language =
      some "python" :=
  ⟨(createBlock_language_spec "b2" BlockType.code "").1,
   (createBlock_language_spec "b2" BlockType.paragraph "").2.2 "python" (by decide)⟩

end ProcessorMVP
